import Mathlib

/-!
Shallow embedding of the NeuroVA rendering pipeline (the four WGSL GPU
programs and their shared frame contract) and proofs of the spec's claims
about them.

Numeric model: shader arithmetic is modelled exactly, over ℚ for every
operation the shaders perform in closed rational form (+, -, *, /, floor,
fract, min, max, comparisons) and over ℝ only where a square root appears
(WGSL `length` / `distance`).  Every f32 value a host can supply is a
rational, so quantifying inputs over ℚ covers all machine inputs; the
idealisation (no rounding) is the arithmetic the spec's exact statements
are about.  `u32` index arithmetic is modelled as ℕ with explicit wrap
modulo 2^32 where the shader subtracts.
-/

namespace NeuroVA

/-- WGSL `clamp(e, low, high) = min(max(e, low), high)`. -/
def clampF {α : Type*} [LinearOrder α] (x lo hi : α) : α :=
  min (max x lo) hi

/-- WGSL `smoothstep(low, high, x)`: `t = clamp((x-low)/(high-low), 0, 1)`,
result `t·t·(3 - 2·t)`. -/
def smoothstep {α : Type*} [LinearOrderedField α] (e0 e1 x : α) : α :=
  let t := clampF ((x - e0) / (e1 - e0)) 0 1
  t * t * (3 - 2 * t)

/-- WGSL `mix(x, y, a) = x·(1-a) + y·a`. -/
def mixF {α : Type*} [LinearOrderedField α] (x y a : α) : α :=
  x * (1 - a) + y * a

/-- WGSL `fract(x) = x - floor(x)`. -/
def fractQ (x : ℚ) : ℚ := x - ⌊x⌋

/-- WGSL 2-vector dot product. -/
def dot2 (a b : ℚ × ℚ) : ℚ := a.1 * b.1 + a.2 * b.2

/-- Componentwise subtraction of 2-vectors. -/
def sub2 (a b : ℚ × ℚ) : ℚ × ℚ := (a.1 - b.1, a.2 - b.2)

/-- Scalar multiple of a 2-vector. -/
def smul2 (t : ℚ) (a : ℚ × ℚ) : ℚ × ℚ := (t * a.1, t * a.2)

/-- WGSL `length(v) = sqrt(dot(v, v))`; the square root leaves ℚ, so the
result lives in ℝ. -/
noncomputable def wlength (v : ℚ × ℚ) : ℝ := Real.sqrt ((dot2 v v : ℚ) : ℝ)

/-- WGSL `distance(a, b) = length(a - b)`. -/
noncomputable def wdistance (a b : ℚ × ℚ) : ℝ := wlength (sub2 a b)

/-- `u32` subtraction `a - b` with wrap-around modulo `2^32`
(for operands below `2^32`). -/
def u32sub (a b : ℕ) : ℕ := (a + 2 ^ 32 - b) % 2 ^ 32

/-! ## Organic-Noise renderer (background shader, `fs_main` with `snoise`)

Source: the simplex-noise background shader (`mod289_*`, `permute`,
`snoise`, `fs_main`).  All arithmetic is rational. -/

/-- `mod289_v3(x) = x - floor(x * (1/289)) * 289`, componentwise. -/
def mod289_v3 (x : ℚ × ℚ × ℚ) : ℚ × ℚ × ℚ :=
  (x.1 - ⌊x.1 * (1 / 289)⌋ * 289,
   x.2.1 - ⌊x.2.1 * (1 / 289)⌋ * 289,
   x.2.2 - ⌊x.2.2 * (1 / 289)⌋ * 289)

/-- `mod289_v2(x) = x - floor(x * (1/289)) * 289`, componentwise. -/
def mod289_v2 (x : ℚ × ℚ) : ℚ × ℚ :=
  (x.1 - ⌊x.1 * (1 / 289)⌋ * 289, x.2 - ⌊x.2 * (1 / 289)⌋ * 289)

/-- `permute(x) = mod289(((x * 34) + 1) * x)`, componentwise on a 3-vector. -/
def permute (x : ℚ × ℚ × ℚ) : ℚ × ℚ × ℚ :=
  mod289_v3 ((x.1 * 34 + 1) * x.1, (x.2.1 * 34 + 1) * x.2.1, (x.2.2 * 34 + 1) * x.2.2)

/-- The 2D simplex-noise function `snoise`, translated line by line from the
shader: cell skewing via the constants `C`, cell hashing through `permute`,
quartic radial falloff `m`, and gradient dot products `g`. -/
def snoise (v : ℚ × ℚ) : ℚ :=
  let Cx : ℚ := 0.2113248654
  let Cy : ℚ := 0.3660254038
  let Cw : ℚ := 0.0243902439
  let d1 : ℚ := v.1 * Cy + v.2 * Cy
  let i : ℚ × ℚ := ((⌊v.1 + d1⌋ : ℤ), (⌊v.2 + d1⌋ : ℤ))
  let d2 : ℚ := i.1 * Cx + i.2 * Cx
  let x0 : ℚ × ℚ := (v.1 - i.1 + d2, v.2 - i.2 + d2)
  let i1 : ℚ × ℚ := if x0.1 > x0.2 then (1, 0) else (0, 1)
  let x1 : ℚ × ℚ := (x0.1 - i1.1 + Cx, x0.2 - i1.2 + Cx)
  let x2 : ℚ × ℚ := (x0.1 - 1 + 2 * Cx, x0.2 - 1 + 2 * Cx)
  let im : ℚ × ℚ := mod289_v2 i
  let pin : ℚ × ℚ × ℚ := permute (im.2 + 0, im.2 + i1.2, im.2 + 1)
  let p : ℚ × ℚ × ℚ :=
    permute (pin.1 + im.1 + 0, pin.2.1 + im.1 + i1.1, pin.2.2 + im.1 + 1)
  let m0 := max (0.5 - dot2 x0 x0) 0
  let m1 := max (0.5 - dot2 x1 x1) 0
  let m2 := max (0.5 - dot2 x2 x2) 0
  let m0a := m0 * m0
  let m1a := m1 * m1
  let m2a := m2 * m2
  let m0b := m0a * m0a
  let m1b := m1a * m1a
  let m2b := m2a * m2a
  let gx0 := 2 * fractQ (p.1 * Cw) - 1
  let gx1 := 2 * fractQ (p.2.1 * Cw) - 1
  let gx2 := 2 * fractQ (p.2.2 * Cw) - 1
  let h0 := |gx0| - 0.5
  let h1 := |gx1| - 0.5
  let h2 := |gx2| - 0.5
  let ox0 : ℚ := (⌊gx0 + 0.5⌋ : ℤ)
  let ox1 : ℚ := (⌊gx1 + 0.5⌋ : ℤ)
  let ox2 : ℚ := (⌊gx2 + 0.5⌋ : ℤ)
  let a00 := gx0 - ox0
  let a01 := gx1 - ox1
  let a02 := gx2 - ox2
  let m0c := m0b * (1.79284291400159 - 0.85373472095314 * (a00 * a00 + h0 * h0))
  let m1c := m1b * (1.79284291400159 - 0.85373472095314 * (a01 * a01 + h1 * h1))
  let m2c := m2b * (1.79284291400159 - 0.85373472095314 * (a02 * a02 + h2 * h2))
  let g0 := a00 * x0.1 + h0 * x0.2
  let g1 := a01 * x1.1 + h1 * x1.2
  let g2 := a02 * x2.1 + h2 * x2.2
  130 * (m0c * g0 + m1c * g1 + m2c * g2)

/-- The uniform block of the Organic-Noise shader: the shared 4-byte slot is
read as the float `awareness_level`. -/
structure NoiseUniforms where
  time : ℚ
  resolution_x : ℚ
  resolution_y : ℚ
  awareness_level : ℚ

/-- `time_speed = mix(2.0, 0.1, awareness)`. -/
def time_speed (awareness : ℚ) : ℚ := mixF 2 0.1 awareness

/-- `zoom = mix(5.0, 2.0, awareness)`. -/
def zoom (awareness : ℚ) : ℚ := mixF 5 2 awareness

/-- `distortion_amount = mix(0.8, 0.0, awareness)`. -/
def distortion_amount (awareness : ℚ) : ℚ := mixF 0.8 0 awareness

/-- The bright-hue blend weight `awareness * awareness`. -/
def brightWeight (awareness : ℚ) : ℚ := awareness * awareness

/-- The Organic-Noise fragment stage `fs_main`, translated line by line:
awareness-derived parameters, four noise octaves summed into `f`, the
domain-warped two-component noise `r`, and the two colour mixes. -/
def organicNoiseFs (u : NoiseUniforms) (frag : ℚ × ℚ) : (ℚ × ℚ × ℚ) × ℚ :=
  let uv : ℚ × ℚ := (frag.1 / u.resolution_x, frag.2 / u.resolution_y)
  let awareness := u.awareness_level
  let speed := time_speed awareness
  let z := zoom awareness
  let da := distortion_amount awareness
  let p : ℚ × ℚ := (uv.1 * z, uv.2 * z)
  let t := u.time * speed
  let f : ℚ :=
    0.5 * snoise (p.1 + t, p.2 + t)
    + 0.25 * snoise (p.1 * 2 + t * 1.5, p.2 * 2 + t * 1.5)
    + 0.125 * snoise (p.1 * 4 + t * 2, p.2 * 4 + t * 2)
    + 0.0625 * snoise (p.1 * 8 + t * 2.5, p.2 * 8 + t * 2.5)
  let q : ℚ × ℚ := (f, f)
  let r : ℚ × ℚ :=
    (snoise (p.1 + q.1 * da + 1.7 + t, p.2 + q.2 * da + 9.2 + t),
     snoise (p.1 + q.1 * da + 8.3 + t, p.2 + q.2 * da + 2.8 + t))
  let dark_color : ℚ × ℚ × ℚ := (0, 0, 0.05)
  let mid_color : ℚ × ℚ × ℚ := (0.1, 0.3, 0.8)
  let bright_color : ℚ × ℚ × ℚ := (0.8, 0.9, 1.0)
  let s := smoothstep (-0.1 : ℚ) 0.4 r.1
  let color1 : ℚ × ℚ × ℚ :=
    (mixF dark_color.1 mid_color.1 s,
     mixF dark_color.2.1 mid_color.2.1 s,
     mixF dark_color.2.2 mid_color.2.2 s)
  let w := brightWeight awareness
  let color2 : ℚ × ℚ × ℚ :=
    (mixF color1.1 bright_color.1 w,
     mixF color1.2.1 bright_color.2.1 w,
     mixF color1.2.2 bright_color.2.2 w)
  (color2, 1)

/-! ## Column-Glow renderer (`shader.wgsl`: `vs_main`, `circle`, `fs_main`)

The fragment stage composites additive circular glow over every record of
the `columns` storage buffer, on top of a fixed dark background. -/

/-- The shared uniform block: `time`, the two resolution components, and the
4-byte slot read as the unsigned integer `num_columns`. -/
structure GlowUniforms where
  time : ℚ
  resolution_x : ℚ
  resolution_y : ℚ
  num_columns : ℕ

/-- One record of the `columns` storage buffer:
`{ pos: vec2<f32>, state: f32 }`. -/
structure Column where
  pos : ℚ × ℚ
  state : ℚ

/-- `circle(uv, center, radius, blur) = smoothstep(radius, radius - blur,
distance(uv, center))`. -/
noncomputable def circle (uv center : ℚ × ℚ) (radius blur : ℚ) : ℝ :=
  smoothstep (radius : ℝ) ((radius - blur : ℚ) : ℝ) (wdistance uv center)

/-- Componentwise addition of ℝ-valued colours. -/
def add3 (a b : ℝ × ℝ × ℝ) : ℝ × ℝ × ℝ :=
  (a.1 + b.1, a.2.1 + b.2.1, a.2.2 + b.2.2)

/-- The loop body of the Column-Glow fragment stage for one column:
`intensity = smoothstep(0.0, 0.8, col.state)`; when `intensity > 0.01`,
`c = circle(uv, col.pos, 0.03, 0.03 * 0.9) * intensity` is scaled by the base
colour `(0.1, 0.7, 0.9)` and the gain `1.5`; otherwise the column adds
nothing. -/
noncomputable def glowUnitContribution (uv : ℚ × ℚ) (col : Column) : ℝ × ℝ × ℝ :=
  let intensity : ℚ := smoothstep 0 0.8 col.state
  if intensity > 0.01 then
    let c : ℝ := circle uv col.pos 0.03 (0.03 * 0.9) * (intensity : ℝ)
    (c * 0.1 * 1.5, c * 0.7 * 1.5, c * 0.9 * 1.5)
  else (0, 0, 0)

/-- The Column-Glow fragment stage `fs_main`: aspect-corrected centred `uv`,
then a loop over `arrayLength(&columns)` records accumulating
`glowUnitContribution` onto the background `(0, 0, 0.02)`; alpha is 1. -/
noncomputable def columnGlowFs (u : GlowUniforms) (cols : List Column)
    (frag : ℚ × ℚ) : (ℝ × ℝ × ℝ) × ℝ :=
  let uv : ℚ × ℚ := ((frag.1 - 0.5 * u.resolution_x) / u.resolution_y,
                     (frag.2 - 0.5 * u.resolution_y) / u.resolution_y)
  let final_color : ℝ × ℝ × ℝ :=
    cols.foldl (fun acc col => add3 acc (glowUnitContribution uv col)) (0, 0, 0.02)
  (final_color, 1)

/-- The Column-Glow fragment stage as the spec's claim describes it: the
iteration bound is the uniform slot `num_columns`, so only the first
`num_columns` buffer records are composited.  Used only to compare the claim
against `columnGlowFs`, which is translated from the source. -/
noncomputable def columnGlowFsClaim (u : GlowUniforms) (cols : List Column)
    (frag : ℚ × ℚ) : (ℝ × ℝ × ℝ) × ℝ :=
  let uv : ℚ × ℚ := ((frag.1 - 0.5 * u.resolution_x) / u.resolution_y,
                     (frag.2 - 0.5 * u.resolution_y) / u.resolution_y)
  let final_color : ℝ × ℝ × ℝ :=
    (cols.take u.num_columns).foldl
      (fun acc col => add3 acc (glowUnitContribution uv col)) (0, 0, 0.02)
  (final_color, 1)

/-- The per-unit processing as the spec's claim describes it: the unit is
skipped exactly when `coverage * intensity < 0.01`.  Used only to compare the
claim against `glowUnitContribution`, which is translated from the source. -/
noncomputable def glowUnitContributionClaim (uv : ℚ × ℚ) (col : Column) : ℝ × ℝ × ℝ :=
  let coverage : ℝ := smoothstep (0.03 : ℝ) ((0.03 - 0.03 * 0.9 : ℚ) : ℝ) (wdistance uv col.pos)
  let intensity : ℚ := smoothstep 0 0.8 col.state
  if coverage * (intensity : ℝ) < 0.01 then (0, 0, 0)
  else
    let c : ℝ := coverage * (intensity : ℝ)
    (c * 0.1 * 1.5, c * 0.7 * 1.5, c * 0.9 * 1.5)

/-- The Column-Glow fragment stage with the claim's per-unit skip rule in
place of the source's, all else unchanged. -/
noncomputable def columnGlowFsSkipClaim (u : GlowUniforms) (cols : List Column)
    (frag : ℚ × ℚ) : (ℝ × ℝ × ℝ) × ℝ :=
  let uv : ℚ × ℚ := ((frag.1 - 0.5 * u.resolution_x) / u.resolution_y,
                     (frag.2 - 0.5 * u.resolution_y) / u.resolution_y)
  let final_color : ℝ × ℝ × ℝ :=
    cols.foldl (fun acc col => add3 acc (glowUnitContributionClaim uv col)) (0, 0, 0.02)
  (final_color, 1)

/-! ## Waveform-Direct renderer (`eeg_shader.wgsl` of the visualizer crate)

The vertex stage reads the live sample count `N = arrayLength(&eeg_data)`:
indices at or beyond `N` are parked at `(-2, -2, 0, 1)`, others are mapped to
`x = -1 + (i / (N-1)) * 2`, `y = eeg_data[i] * 0.5`. -/

/-- The Waveform-Direct vertex stage `vs_main`.  List indexing models the
storage buffer; the branch guarantees in-bounds access.  `f32(num_points - 1u)`
is `u32` subtraction, hence `u32sub`. -/
def waveformDirectVs (samples : List ℚ) (i : ℕ) : ℚ × ℚ × ℚ × ℚ :=
  let num_points := samples.length
  if i ≥ num_points then (-2, -2, 0, 1)
  else
    let x : ℚ := -1 + ((i : ℚ) / ((u32sub num_points 1 : ℕ) : ℚ)) * 2
    let y : ℚ := samples.getD i 0 * 0.5
    (x, y, 0, 1)

/-! ## Waveform-SDF renderer (`eeg_shader.wgsl`: `vs_main`, `dist_to_segment`,
`fs_main`) -/

/-- `dist_to_segment(p, a, b)`: `h = clamp(dot(p-a, b-a) / dot(b-a, b-a), 0, 1)`,
result `length(p - a - (b-a) * h)`. -/
noncomputable def dist_to_segment (p a b : ℚ × ℚ) : ℝ :=
  let pa := sub2 p a
  let ba := sub2 b a
  let h := clampF (dot2 pa ba / dot2 ba ba) 0 1
  wlength (sub2 pa (smul2 h ba))

/-- Sample `k` mapped to pixel space: normalized coordinate
`(k / (N-1), (eeg_data[k] + 1) / 2)` scaled by the resolution.  The divisor
`f32(num_points - 1u)` is `u32` subtraction. -/
def segPoint (rx ry : ℚ) (samples : List ℚ) (k : ℕ) : ℚ × ℚ :=
  (((k : ℚ) / ((u32sub samples.length 1 : ℕ) : ℚ)) * rx,
   ((samples.getD k 0 + 1) / 2) * ry)

/-- The loop bound of the Waveform-SDF fragment stage:
`num_points - 1u` in wrapping `u32` arithmetic. -/
def sdfLoopBound (num_points : ℕ) : ℕ := u32sub num_points 1

/-- The minimum-distance search of the Waveform-SDF fragment stage: fold of
`min` over `dist_to_segment` for every segment index below `sdfLoopBound N`,
starting from the sentinel `1e9`. -/
noncomputable def sdfMinDist (rx ry : ℚ) (samples : List ℚ) (p : ℚ × ℚ) : ℝ :=
  (List.range (sdfLoopBound samples.length)).foldl
    (fun acc k =>
      min acc (dist_to_segment p (segPoint rx ry samples k) (segPoint rx ry samples (k + 1))))
    1000000000

/-- The Waveform-SDF fragment stage `fs_main`: `frag_coord ∈ [-1,1]²` is mapped
to `uv ∈ [0,1]²` and then to pixel coordinates; `intensity` and `core_line`
shape the minimum distance; output `(line_color * (intensity*0.5 +
core_line*0.5), intensity)`. -/
noncomputable def sdfFs (rx ry : ℚ) (samples : List ℚ) (fc : ℚ × ℚ) : (ℝ × ℝ × ℝ) × ℝ :=
  let uv : ℚ × ℚ := ((fc.1 + 1) / 2, (fc.2 + 1) / 2)
  let frag_coord_px : ℚ × ℚ := (uv.1 * rx, uv.2 * ry)
  let min_dist : ℝ := sdfMinDist rx ry samples frag_coord_px
  let intensity : ℝ := smoothstep (10 : ℝ) 0 min_dist
  let core_line : ℝ := smoothstep (1.5 : ℝ) 0 min_dist
  ((0 * (intensity * 0.5 + core_line * 0.5),
    1 * (intensity * 0.5 + core_line * 0.5),
    0.8 * (intensity * 0.5 + core_line * 0.5)),
   intensity)

/-! ## Full-screen vertex stages -/

/-- The full-screen vertex stage of `eeg_shader.wgsl`: an explicit oversized
triangle `(-1,-1), (3,-1), (-1,3)` at `z = 0`, `w = 1`. -/
def fullscreenVsA (i : ℕ) : ℚ × ℚ × ℚ × ℚ :=
  let p := [((-1 : ℚ), (-1 : ℚ)), (3, -1), (-1, 3)].getD i (-1, -1)
  (p.1, p.2, 0, 1)

/-- The full-screen vertex stage of `shader.wgsl` and the background shader:
`x = f32(i / 2) * 4 - 1`, `y = f32(i % 2) * 4 - 1`, `z = 0`, `w = 1`. -/
def fullscreenVsB (i : ℕ) : ℚ × ℚ × ℚ × ℚ :=
  (((i / 2 : ℕ) : ℚ) * 4 - 1, ((i % 2 : ℕ) : ℚ) * 4 - 1, 0, 1)

/-- The clip-space `(x, y)` of an emitted vertex, as a real point. -/
def xyOf (v : ℚ × ℚ × ℚ × ℚ) : ℝ × ℝ := ((v.1 : ℝ), (v.2.1 : ℝ))

/-- `p` lies in the closed triangle `A B C`: it is a convex combination of the
three vertices. -/
def pointInTriangle (A B C p : ℝ × ℝ) : Prop :=
  ∃ a b c : ℝ, 0 ≤ a ∧ 0 ≤ b ∧ 0 ≤ c ∧ a + b + c = 1 ∧
    p.1 = a * A.1 + b * B.1 + c * C.1 ∧ p.2 = a * A.2 + b * B.2 + c * C.2

/-! ## Helper lemmas -/

theorem u32sub_one (a : ℕ) (h1 : 1 ≤ a) (h2 : a < 2 ^ 32) :
    u32sub a 1 = a - 1 := by
  unfold u32sub
  have h : a + 2 ^ 32 - 1 = (a - 1) + 2 ^ 32 := by omega
  rw [h, Nat.add_mod_right, Nat.mod_eq_of_lt (by omega)]

theorem smoothstep_nonneg {α : Type*} [LinearOrderedField α] (e0 e1 x : α) :
    0 ≤ smoothstep e0 e1 x := by
  unfold smoothstep clampF
  set t := min (max ((x - e0) / (e1 - e0)) 0) 1 with ht
  have h0 : 0 ≤ t := le_min (le_max_right _ 0) zero_le_one
  have h1 : t ≤ 1 := min_le_right _ 1
  have h3 : 0 ≤ 3 - 2 * t := by linarith
  positivity

theorem wdistance_nonneg (a b : ℚ × ℚ) : 0 ≤ wdistance a b :=
  Real.sqrt_nonneg _

theorem wdist_axis (a b : ℚ) (y : ℚ) (h : a ≤ b) :
    wdistance (a, y) (b, y) = ((b - a : ℚ) : ℝ) := by
  unfold wdistance wlength sub2 dot2
  have hh : ((a - b) * (a - b) + (y - y) * (y - y) : ℚ) = (b - a) ^ 2 := by ring
  simp only [hh]
  push_cast
  rw [Real.sqrt_sq (by exact_mod_cast sub_nonneg.mpr h)]

theorem dist_to_segment_nonneg (p a b : ℚ × ℚ) : 0 ≤ dist_to_segment p a b :=
  Real.sqrt_nonneg _

theorem dist_to_segment_on (p a b : ℚ × ℚ) (t : ℚ) (ht0 : 0 ≤ t) (ht1 : t ≤ 1)
    (hba : 0 < dot2 (sub2 b a) (sub2 b a))
    (hp : p = (a.1 + t * (b.1 - a.1), a.2 + t * (b.2 - a.2))) :
    dist_to_segment p a b = 0 := by
  subst hp
  unfold dist_to_segment
  have hpa : sub2 (a.1 + t * (b.1 - a.1), a.2 + t * (b.2 - a.2)) a
      = smul2 t (sub2 b a) := by
    unfold sub2 smul2
    exact Prod.ext (by dsimp; ring) (by dsimp; ring)
  rw [hpa]
  dsimp only
  have hdot : dot2 (smul2 t (sub2 b a)) (sub2 b a)
      = t * dot2 (sub2 b a) (sub2 b a) := by
    unfold dot2 smul2 sub2
    dsimp
    ring
  rw [hdot]
  have hdiv : t * dot2 (sub2 b a) (sub2 b a) / dot2 (sub2 b a) (sub2 b a) = t := by
    field_simp
  rw [hdiv]
  have hcl : clampF t 0 1 = t := by
    unfold clampF
    rw [max_eq_left ht0, min_eq_left ht1]
  rw [hcl]
  have hz : sub2 (smul2 t (sub2 b a)) (smul2 t (sub2 b a)) = (0, 0) := by
    unfold sub2 smul2
    simp
  rw [hz]
  unfold wlength dot2
  norm_num

theorem foldl_min_nonneg (f : ℕ → ℝ) (l : List ℕ) (init : ℝ) (h0 : 0 ≤ init)
    (hf : ∀ k ∈ l, 0 ≤ f k) :
    0 ≤ l.foldl (fun a k => min a (f k)) init := by
  induction l generalizing init with
  | nil => simpa using h0
  | cons x xs ih =>
      simp only [List.foldl]
      exact ih _ (le_min h0 (hf x (by simp))) (fun k hk => hf k (by simp [hk]))

theorem foldl_min_le_init (f : ℕ → ℝ) (l : List ℕ) (init : ℝ) :
    l.foldl (fun a k => min a (f k)) init ≤ init := by
  induction l generalizing init with
  | nil => simp
  | cons x xs ih =>
      simp only [List.foldl]
      exact le_trans (ih (min init (f x))) (min_le_left _ _)

theorem foldl_min_le_mem (f : ℕ → ℝ) (l : List ℕ) (init : ℝ) (k : ℕ) (hk : k ∈ l) :
    l.foldl (fun a k => min a (f k)) init ≤ f k := by
  induction l generalizing init with
  | nil => cases hk
  | cons x xs ih =>
      simp only [List.foldl]
      rcases List.mem_cons.mp hk with h | h
      · subst h
        exact le_trans (foldl_min_le_init f xs (min init (f k))) (min_le_right _ _)
      · exact ih (min init (f x)) h

theorem segPoint_dx (rx ry : ℚ) (samples : List ℚ) (k : ℕ)
    (h2 : 2 ≤ samples.length) (hlt : samples.length < 2 ^ 32) :
    (segPoint rx ry samples (k + 1)).1 - (segPoint rx ry samples k).1 =
      rx / ((samples.length - 1 : ℕ) : ℚ) := by
  unfold segPoint
  rw [u32sub_one _ (by omega) hlt]
  have hden : ((samples.length : ℚ) - 1) ≠ 0 := by
    have h1 : (2 : ℚ) ≤ (samples.length : ℚ) := by exact_mod_cast h2
    linarith
  dsimp
  push_cast
  field_simp
  ring

theorem seg_dot_pos (rx ry : ℚ) (samples : List ℚ) (k : ℕ)
    (h2 : 2 ≤ samples.length) (hlt : samples.length < 2 ^ 32) (hrx : 0 < rx) :
    0 < dot2 (sub2 (segPoint rx ry samples (k + 1)) (segPoint rx ry samples k))
        (sub2 (segPoint rx ry samples (k + 1)) (segPoint rx ry samples k)) := by
  have hdx := segPoint_dx rx ry samples k h2 hlt
  set v := sub2 (segPoint rx ry samples (k + 1)) (segPoint rx ry samples k) with hv
  have hv1 : v.1 = rx / ((samples.length - 1 : ℕ) : ℚ) := by
    rw [hv]
    unfold sub2
    dsimp
    exact hdx
  have hden : (0 : ℚ) < ((samples.length - 1 : ℕ) : ℚ) := by
    exact_mod_cast (by omega : 0 < samples.length - 1)
  have hpos : 0 < v.1 := by
    rw [hv1]
    positivity
  unfold dot2
  nlinarith [sq_nonneg v.2, hpos]

/-! ## Claim theorems -/

/-- C6: the Organic-Noise renderer derives its parameters by linear
interpolation from awareness; at the endpoints, awareness = 0 gives
speed = 2.0, zoom = 5.0, distortion = 0.8 and bright-blend weight 0, and
awareness = 1 gives speed = 0.1, zoom = 2.0, distortion = 0.0 and
bright-blend weight 1 (the weight being awareness squared). -/
theorem C6_organic_endpoints :
    time_speed 0 = 2 ∧ zoom 0 = 5 ∧ distortion_amount 0 = 0.8 ∧ brightWeight 0 = 0 ∧
    time_speed 1 = 0.1 ∧ zoom 1 = 2 ∧ distortion_amount 1 = 0 ∧ brightWeight 1 = 1 := by
  norm_num [time_speed, zoom, distortion_amount, brightWeight, mixF]

/-- C7: the Organic-Noise fragment stage (including every snoise call) is a
pure function of the fragment coordinate and the uniform block (time,
resolution, awareness level): two evaluations with identical inputs produce
identical output, and the embedding reads no other state. -/
theorem C7_organic_deterministic (u₁ u₂ : NoiseUniforms) (f₁ f₂ : ℚ × ℚ)
    (hu : u₁ = u₂) (hf : f₁ = f₂) :
    organicNoiseFs u₁ f₁ = organicNoiseFs u₂ f₂ := by
  rw [hu, hf]

theorem C7_witness :
    (⟨0, 800, 600, 1⟩ : NoiseUniforms) = ⟨0, 800, 600, 1⟩ ∧
    organicNoiseFs ⟨0, 800, 600, 1⟩ (5, 7) = organicNoiseFs ⟨0, 800, 600, 1⟩ (5, 7) :=
  ⟨rfl, C7_organic_deterministic ⟨0, 800, 600, 1⟩ ⟨0, 800, 600, 1⟩ (5, 7) (5, 7) rfl rfl⟩

/-- C3, counterexample: with the uniform slot set to 0 but one bright column
in the buffer at the fragment's own position, the source fragment stage
composites that column (it iterates `arrayLength(&columns)` records), while a
stage whose iteration bound is the uniform slot would emit the bare
background; the two outputs differ. -/
theorem C3_counterexample :
    columnGlowFs ⟨0, 1, 1, 0⟩ [⟨(0, 0), 1⟩] (0.5, 0.5) ≠
      columnGlowFsClaim ⟨0, 1, 1, 0⟩ [⟨(0, 0), 1⟩] (0.5, 0.5) := by
  have hi : smoothstep (0 : ℚ) 0.8 1 = 1 := by norm_num [smoothstep, clampF]
  have hc0 : circle 0 0 (3 / 100) (27 / 1000) = 1 := by
    unfold circle
    have hw0 : wdistance 0 0 = 0 := by
      have h := wdist_axis 0 0 0 le_rfl
      simpa using h
    rw [hw0]
    norm_num [smoothstep, clampF]
  intro h
  have h1 := congrArg (fun z => z.1.1) h
  simp only [columnGlowFs, columnGlowFsClaim, glowUnitContribution, List.foldl,
    List.take, add3] at h1
  rw [hi] at h1
  norm_num at h1
  rw [hc0] at h1
  exact one_ne_zero h1

/-- C3, amended: the Column-Glow fragment stage's iteration bound is the
runtime length of the `columns` storage buffer (`arrayLength(&columns)`), not
the 4-byte uniform slot: the output is independent of the slot's value, and
equals the slot-bounded stage exactly when the slot is set to the buffer
length. -/
theorem C3_loop_bound (t rx ry : ℚ) (n nn : ℕ) (cols : List Column) (frag : ℚ × ℚ) :
    columnGlowFs ⟨t, rx, ry, n⟩ cols frag = columnGlowFs ⟨t, rx, ry, nn⟩ cols frag ∧
    columnGlowFs ⟨t, rx, ry, n⟩ cols frag =
      columnGlowFsClaim ⟨t, rx, ry, cols.length⟩ cols frag := by
  constructor
  · rfl
  · simp [columnGlowFs, columnGlowFsClaim, List.take_length]

/-- C9: for every frame state and fragment, the Column-Glow output has alpha
exactly 1 and every colour component at least the fixed dark background
(0, 0, 0.02): each column's contribution is componentwise non-negative, so
the additive accumulation never falls below the background. -/
theorem C9_glow_invariant (u : GlowUniforms) (cols : List Column) (frag : ℚ × ℚ) :
    (columnGlowFs u cols frag).2 = 1 ∧
    0 ≤ (columnGlowFs u cols frag).1.1 ∧
    0 ≤ (columnGlowFs u cols frag).1.2.1 ∧
    0.02 ≤ (columnGlowFs u cols frag).1.2.2 := by
  refine ⟨rfl, ?_⟩
  have key : ∀ (cs : List Column) (uv : ℚ × ℚ) (acc : ℝ × ℝ × ℝ),
      acc.1 ≤ (cs.foldl (fun a c => add3 a (glowUnitContribution uv c)) acc).1 ∧
      acc.2.1 ≤ (cs.foldl (fun a c => add3 a (glowUnitContribution uv c)) acc).2.1 ∧
      acc.2.2 ≤ (cs.foldl (fun a c => add3 a (glowUnitContribution uv c)) acc).2.2 := by
    intro cs
    induction cs with
    | nil => intro uv acc; exact ⟨le_rfl, le_rfl, le_rfl⟩
    | cons c cs ih =>
        intro uv acc
        have hnn : 0 ≤ (glowUnitContribution uv c).1 ∧
            0 ≤ (glowUnitContribution uv c).2.1 ∧
            0 ≤ (glowUnitContribution uv c).2.2 := by
          unfold glowUnitContribution
          dsimp only
          split
          · rename_i hgt
            have hcirc : (0 : ℝ) ≤ circle uv c.pos 0.03 (0.03 * 0.9) :=
              smoothstep_nonneg _ _ _
            have hint : (0 : ℝ) ≤ ((smoothstep 0 0.8 c.state : ℚ) : ℝ) := by
              exact_mod_cast smoothstep_nonneg (0 : ℚ) 0.8 c.state
            refine ⟨?_, ?_, ?_⟩ <;> positivity
          · exact ⟨le_rfl, le_rfl, le_rfl⟩
        have step := ih uv (add3 acc (glowUnitContribution uv c))
        simp only [List.foldl]
        refine ⟨le_trans ?_ step.1, le_trans ?_ step.2.1, le_trans ?_ step.2.2⟩ <;>
          simp only [add3] <;> linarith [hnn.1, hnn.2.1, hnn.2.2]
    -- end key
  have h := key cols
    ((frag.1 - 0.5 * u.resolution_x) / u.resolution_y,
     (frag.2 - 0.5 * u.resolution_y) / u.resolution_y) (0, 0, 0.02)
  simpa [columnGlowFs] using h

/-- C2, counterexample: a column whose centre lies 0.02865 units from the
fragment has coverage 29/4000 = 0.00725 and intensity 1, so
coverage·intensity < 0.01; a stage that skips on that product would emit the
bare background, but the source stage (which skips only on
intensity ≤ 0.01) composites the column, and the outputs differ. -/
theorem C2_counterexample :
    columnGlowFs ⟨0, 1, 1, 1⟩ [⟨(573 / 20000, 0), 1⟩] (0.5, 0.5) ≠
      columnGlowFsSkipClaim ⟨0, 1, 1, 1⟩ [⟨(573 / 20000, 0), 1⟩] (0.5, 0.5) := by
  have hi : smoothstep (0 : ℚ) 0.8 1 = 1 := by norm_num [smoothstep, clampF]
  have hwd : wdistance ((0.5 - 0.5 * 1) / 1, (0.5 - 0.5 * 1) / 1) (573 / 20000, 0) =
      ((573 / 20000 : ℚ) : ℝ) := by
    rw [show (((0.5 - 0.5 * 1) / 1 : ℚ), ((0.5 - 0.5 * 1) / 1 : ℚ)) = ((0 : ℚ), (0 : ℚ)) from by
      norm_num]
    rw [wdist_axis 0 (573 / 20000) 0 (by norm_num)]
    norm_num
  intro h
  have h1 := congrArg (fun z => z.1.1) h
  simp only [columnGlowFs, columnGlowFsSkipClaim, glowUnitContribution,
    glowUnitContributionClaim, circle, List.foldl, add3] at h1
  rw [hi] at h1
  rw [hwd] at h1
  norm_num [smoothstep, clampF] at h1

/-- C2, amended: for every frame state and fragment the Column-Glow stage
processes each unit with coverage = smoothstep(0.03, 0.03 - 0.03·0.9,
distance(uv, position)) and intensity = smoothstep(0, 0.8, activation), skips
the unit exactly when intensity ≤ 0.01 (coverage plays no part in the skip
test), and adds coverage·intensity·base_hue·1.5 for every non-skipped unit,
additively on top of the fixed dark background. -/
theorem C2_glow_unit_rule (u : GlowUniforms) (cols : List Column) (frag : ℚ × ℚ) :
    columnGlowFs u cols frag =
      (cols.foldl
        (fun acc col =>
          let coverage : ℝ :=
            smoothstep ((0.03 : ℚ) : ℝ) ((0.03 - 0.03 * 0.9 : ℚ) : ℝ)
              (wdistance ((frag.1 - 0.5 * u.resolution_x) / u.resolution_y,
                          (frag.2 - 0.5 * u.resolution_y) / u.resolution_y) col.pos)
          let intensity : ℚ := smoothstep 0 0.8 col.state
          if 0.01 < intensity then
            add3 acc (coverage * (intensity : ℝ) * 0.1 * 1.5,
                      coverage * (intensity : ℝ) * 0.7 * 1.5,
                      coverage * (intensity : ℝ) * 0.9 * 1.5)
          else acc)
        (0, 0, 0.02), 1) := by
  unfold columnGlowFs
  dsimp only
  congr 1
  have hfun : (fun (acc : ℝ × ℝ × ℝ) col =>
      add3 acc (glowUnitContribution
        ((frag.1 - 0.5 * u.resolution_x) / u.resolution_y,
         (frag.2 - 0.5 * u.resolution_y) / u.resolution_y) col)) =
      (fun (acc : ℝ × ℝ × ℝ) col =>
        let coverage : ℝ :=
          smoothstep ((0.03 : ℚ) : ℝ) ((0.03 - 0.03 * 0.9 : ℚ) : ℝ)
            (wdistance ((frag.1 - 0.5 * u.resolution_x) / u.resolution_y,
                        (frag.2 - 0.5 * u.resolution_y) / u.resolution_y) col.pos)
        let intensity : ℚ := smoothstep 0 0.8 col.state
        if 0.01 < intensity then
          add3 acc (coverage * (intensity : ℝ) * 0.1 * 1.5,
                    coverage * (intensity : ℝ) * 0.7 * 1.5,
                    coverage * (intensity : ℝ) * 0.9 * 1.5)
        else acc) := by
    funext acc col
    unfold glowUnitContribution circle
    dsimp only
    split
    · rfl
    · simp [add3]
  rw [hfun]

/-- C4: the Waveform-Direct vertex stage emits, for an index at or beyond the
live sample count, a position whose x and y coordinates are both outside
[-1, 1], and, for an index below the count, exactly
x = -1 + 2·i/(N-1), y = sample[i]·0.5, z = 0, w = 1. -/
theorem C4_direct_vertex (samples : List ℚ) (i : ℕ) (hN : samples.length < 2 ^ 32) :
    (samples.length ≤ i →
      (waveformDirectVs samples i).1 < -1 ∧ (waveformDirectVs samples i).2.1 < -1) ∧
    (i < samples.length →
      waveformDirectVs samples i =
        (-1 + 2 * (i : ℚ) / ((samples.length - 1 : ℕ) : ℚ),
         samples.getD i 0 * 0.5, 0, 1)) := by
  constructor
  · intro hi
    unfold waveformDirectVs
    rw [if_pos (by omega)]
    norm_num
  · intro hi
    unfold waveformDirectVs
    rw [if_neg (by omega)]
    dsimp only
    rw [u32sub_one _ (by omega) hN]
    refine Prod.ext ?_ rfl
    dsimp
    ring

theorem C4_witness :
    (([1/2, -1/2, 1/4] : List ℚ).length < 2 ^ 32) ∧
    (waveformDirectVs [1/2, -1/2, 1/4] 5).1 < -1 ∧
    waveformDirectVs [1/2, -1/2, 1/4] 1 = (0, -1/4, 0, 1) := by
  refine ⟨by norm_num, ((C4_direct_vertex [1/2, -1/2, 1/4] 5 (by norm_num)).1
    (by norm_num)).1, ?_⟩
  have h := (C4_direct_vertex [1/2, -1/2, 1/4] 1 (by norm_num)).2 (by norm_num)
  rw [h]
  norm_num

/-- C8: for every vertex index in {0, 1, 2}, both full-screen vertex stages
(the explicit oversized-triangle construction and the bit-parity
construction) emit a clip-space position with z = 0 and w = 1, reading no
input buffer, and the triangle formed by the three emitted positions contains
every point of the clip-space square [-1, 1] × [-1, 1]. -/
theorem C8_fullscreen (i : ℕ) (p : ℝ × ℝ) (hi : i < 3)
    (hp : -1 ≤ p.1 ∧ p.1 ≤ 1 ∧ -1 ≤ p.2 ∧ p.2 ≤ 1) :
    (fullscreenVsA i).2.2 = (0, 1) ∧ (fullscreenVsB i).2.2 = (0, 1) ∧
    pointInTriangle (xyOf (fullscreenVsA 0)) (xyOf (fullscreenVsA 1))
      (xyOf (fullscreenVsA 2)) p ∧
    pointInTriangle (xyOf (fullscreenVsB 0)) (xyOf (fullscreenVsB 1))
      (xyOf (fullscreenVsB 2)) p := by
  obtain ⟨h1, h2, h3, h4⟩ := hp
  refine ⟨rfl, rfl, ?_, ?_⟩
  · refine ⟨(2 - p.1 - p.2) / 4, (p.1 + 1) / 4, (p.2 + 1) / 4,
      by linarith, by linarith, by linarith, by ring, ?_, ?_⟩
    · norm_num [xyOf, fullscreenVsA]
      ring
    · norm_num [xyOf, fullscreenVsA]
      ring
  · refine ⟨(2 - p.1 - p.2) / 4, (p.2 + 1) / 4, (p.1 + 1) / 4,
      by linarith, by linarith, by linarith, by ring, ?_, ?_⟩
    · norm_num [xyOf, fullscreenVsB]
      ring
    · norm_num [xyOf, fullscreenVsB]
      ring

theorem C8_witness :
    (0 < 3) ∧
    ((-1 : ℝ) ≤ (1/4 : ℝ)) ∧ ((1/4 : ℝ) ≤ 1) ∧ ((-1 : ℝ) ≤ (-1/3 : ℝ)) ∧ ((-1/3 : ℝ) ≤ 1) ∧
    ((fullscreenVsA 0).2.2 = ((0 : ℚ), (1 : ℚ)) ∧ (fullscreenVsB 0).2.2 = ((0 : ℚ), (1 : ℚ)) ∧
      pointInTriangle (xyOf (fullscreenVsA 0)) (xyOf (fullscreenVsA 1))
        (xyOf (fullscreenVsA 2)) (1/4, -1/3) ∧
      pointInTriangle (xyOf (fullscreenVsB 0)) (xyOf (fullscreenVsB 1))
        (xyOf (fullscreenVsB 2)) (1/4, -1/3)) := by
  refine ⟨by norm_num, by norm_num, by norm_num, by norm_num, by norm_num, ?_⟩
  exact C8_fullscreen 0 (1/4, -1/3) (by norm_num) (by norm_num)

/-- C10: for a live sample count of at least 2 and a positive resolution
width, every segment the Waveform-SDF fragment loop hands to
dist_to_segment has endpoints whose pixel-space x-coordinates differ by
resolution_x/(N-1) > 0; hence dot(ba, ba) > 0 and the division defining h is
never a division by zero. -/
theorem C10_segment_endpoints (rx ry : ℚ) (samples : List ℚ) (k : ℕ)
    (h2 : 2 ≤ samples.length) (hlt : samples.length < 2 ^ 32) (hrx : 0 < rx)
    (hk : k < samples.length - 1) :
    (segPoint rx ry samples (k + 1)).1 - (segPoint rx ry samples k).1 =
      rx / ((samples.length - 1 : ℕ) : ℚ) ∧
    0 < rx / ((samples.length - 1 : ℕ) : ℚ) ∧
    0 < dot2 (sub2 (segPoint rx ry samples (k + 1)) (segPoint rx ry samples k))
        (sub2 (segPoint rx ry samples (k + 1)) (segPoint rx ry samples k)) := by
  refine ⟨segPoint_dx rx ry samples k h2 hlt, ?_, seg_dot_pos rx ry samples k h2 hlt hrx⟩
  have hden : (0 : ℚ) < ((samples.length - 1 : ℕ) : ℚ) := by
    exact_mod_cast (by omega : 0 < samples.length - 1)
  positivity

theorem C10_witness :
    (2 ≤ ([0, 0] : List ℚ).length) ∧ (([0, 0] : List ℚ).length < 2 ^ 32) ∧
    ((0 : ℚ) < 100) ∧ (0 < ([0, 0] : List ℚ).length - 1) ∧
    0 < dot2 (sub2 (segPoint 100 50 [0, 0] 1) (segPoint 100 50 [0, 0] 0))
        (sub2 (segPoint 100 50 [0, 0] 1) (segPoint 100 50 [0, 0] 0)) := by
  refine ⟨by norm_num, by norm_num, by norm_num, by norm_num, ?_⟩
  exact (C10_segment_endpoints 100 50 [0, 0] 0 (by norm_num) (by norm_num)
    (by norm_num) (by norm_num)).2.2

/-- C5: for every live sample count N ≥ 2, every sample sequence, and every
resolution with positive width and height, a Waveform-SDF fragment whose
pixel coordinate lies exactly on segment k has minimum distance 0, hence
glow = smoothstep(10, 0, 0) = 1 and core = smoothstep(1.5, 0, 0) = 1, so the
output colour equals the line hue (0, 1, 0.8) and the alpha equals 1. -/
theorem C5_on_segment (rx ry : ℚ) (samples : List ℚ) (fc : ℚ × ℚ) (k : ℕ) (t : ℚ)
    (h2 : 2 ≤ samples.length) (hlt : samples.length < 2 ^ 32)
    (hrx : 0 < rx) (hry : 0 < ry) (hk : k < samples.length - 1)
    (ht0 : 0 ≤ t) (ht1 : t ≤ 1)
    (hp : ((fc.1 + 1) / 2 * rx, (fc.2 + 1) / 2 * ry) =
      ((segPoint rx ry samples k).1 +
         t * ((segPoint rx ry samples (k + 1)).1 - (segPoint rx ry samples k).1),
       (segPoint rx ry samples k).2 +
         t * ((segPoint rx ry samples (k + 1)).2 - (segPoint rx ry samples k).2))) :
    sdfFs rx ry samples fc = ((0, 1, 0.8), 1) := by
  have hzero : dist_to_segment ((fc.1 + 1) / 2 * rx, (fc.2 + 1) / 2 * ry)
      (segPoint rx ry samples k) (segPoint rx ry samples (k + 1)) = 0 :=
    dist_to_segment_on _ _ _ t ht0 ht1 (seg_dot_pos rx ry samples k h2 hlt hrx) hp
  have hbound : sdfLoopBound samples.length = samples.length - 1 :=
    u32sub_one _ (by omega) hlt
  have hmin : sdfMinDist rx ry samples ((fc.1 + 1) / 2 * rx, (fc.2 + 1) / 2 * ry) = 0 := by
    unfold sdfMinDist
    have hmem : k ∈ List.range (sdfLoopBound samples.length) := by
      rw [hbound]
      exact List.mem_range.mpr hk
    have hle : (List.range (sdfLoopBound samples.length)).foldl
        (fun acc j => min acc (dist_to_segment ((fc.1 + 1) / 2 * rx, (fc.2 + 1) / 2 * ry)
          (segPoint rx ry samples j) (segPoint rx ry samples (j + 1)))) 1000000000 ≤
        dist_to_segment ((fc.1 + 1) / 2 * rx, (fc.2 + 1) / 2 * ry)
          (segPoint rx ry samples k) (segPoint rx ry samples (k + 1)) :=
      foldl_min_le_mem _ _ _ _ hmem
    have hge : (0 : ℝ) ≤ (List.range (sdfLoopBound samples.length)).foldl
        (fun acc j => min acc (dist_to_segment ((fc.1 + 1) / 2 * rx, (fc.2 + 1) / 2 * ry)
          (segPoint rx ry samples j) (segPoint rx ry samples (j + 1)))) 1000000000 :=
      foldl_min_nonneg _ _ _ (by norm_num) (fun j _ => dist_to_segment_nonneg _ _ _)
    rw [hzero] at hle
    linarith
  unfold sdfFs
  dsimp only
  rw [hmin]
  norm_num [smoothstep, clampF]

theorem C5_witness :
    (2 ≤ ([0, 0] : List ℚ).length) ∧ (([0, 0] : List ℚ).length < 2 ^ 32) ∧
    ((0 : ℚ) < 100) ∧ (0 < ([0, 0] : List ℚ).length - 1) ∧
    ((0 : ℚ) ≤ 1/2) ∧ ((1/2 : ℚ) ≤ 1) ∧
    sdfFs 100 100 [0, 0] (0, 0) = ((0, 1, 0.8), 1) := by
  have hseg : u32sub ([0, 0] : List ℚ).length 1 = 1 := by
    show u32sub 2 1 = 1
    decide
  refine ⟨by norm_num, by norm_num, by norm_num, by norm_num, by norm_num, by norm_num, ?_⟩
  refine C5_on_segment 100 100 [0, 0] (0, 0) 0 (1/2) (by norm_num) (by norm_num)
    (by norm_num) (by norm_num) (by norm_num) (by norm_num) (by norm_num) ?_
  simp only [segPoint, hseg]
  norm_num

/-- C1: evaluation of the Waveform-SDF loop bound at the failing input N = 0:
`num_points - 1u` in wrapping u32 arithmetic is 4294967295, so the segment
loop does not run zero times as the claim requires (the spec's intended
"no segments" behaviour only holds at N = 1, where the bound is 0 and the
output alpha is 0 for every fragment and resolution). -/
theorem C1_sdf_underflow :
    sdfLoopBound 0 = 4294967295 ∧ sdfLoopBound 1 = 0 ∧
    ∀ (rx ry s : ℚ) (fc : ℚ × ℚ), (sdfFs rx ry [s] fc).2 = 0 := by
  refine ⟨by decide, by decide, ?_⟩
  intro rx ry s fc
  have hb : sdfLoopBound ([s] : List ℚ).length = 0 := by
    show sdfLoopBound 1 = 0
    decide
  have hmin : sdfMinDist rx ry [s]
      ((fc.1 + 1) / 2 * rx, (fc.2 + 1) / 2 * ry) = 1000000000 := by
    unfold sdfMinDist
    rw [hb]
    rfl
  unfold sdfFs
  dsimp only
  rw [hmin]
  norm_num [smoothstep, clampF]

end NeuroVA
